import Mathlib

/-!
Verification of the bumpo 2D spatial-object and grid-layout engine
(Shape / GameObject / Cell / Table / Grid) against its specification.

The Python sources are shallowly embedded: pygame rectangles become an
integer `Rect` structure, raster surfaces are represented by their pixel
size, and each method becomes a Lean function over these structures.
Machine integers in CPython are unbounded, so plain `Int`/`Nat` model them
exactly.  C-level integer division in pygame's rect code truncates toward
zero; it is only ever applied to widths and heights, which are nonnegative
in every construction modelled here, so `Int.tdiv` (truncating division)
matches it exactly.
-/

/-- Embeds `pygame.Rect`: position `x`,`y` and extent `w`,`h`, all integers. -/
structure Rect where
  x : Int
  y : Int
  w : Int
  h : Int
deriving DecidableEq, Repr

/-- Embeds `rect.left` (alias of `x`). -/
def Rect.left (r : Rect) : Int := r.x

/-- Embeds `rect.top` (alias of `y`). -/
def Rect.top (r : Rect) : Int := r.y

/-- Embeds `rect.right = x + w`. -/
def Rect.right (r : Rect) : Int := r.x + r.w

/-- Embeds `rect.bottom = y + h`. -/
def Rect.bottom (r : Rect) : Int := r.y + r.h

/-- Embeds `rect.move(dx, dy)` / `move_ip`: translate by the given offset. -/
def Rect.move (r : Rect) (dx dy : Int) : Rect :=
  { r with x := r.x + dx, y := r.y + dy }

/-- Embeds pygame `Rect.clamp(bound)` (rect.c `rect_clamp`): translate the
rectangle the minimum distance so it lies inside `b`; on an axis where it is
at least as large as `b` it is centered instead (C code:
`if self.w >= B.w: x = B.x + B.w/2 - self.w/2 elif self.x < B.x: x = B.x
elif self.x + self.w > B.x + B.w: x = B.x + B.w - self.w else: x = self.x`,
and the same for the vertical axis). -/
def Rect.clamp (r b : Rect) : Rect :=
  let nx : Int :=
    if b.w ≤ r.w then b.x + Int.tdiv b.w 2 - Int.tdiv r.w 2
    else if r.x < b.x then b.x
    else if b.x + b.w < r.x + r.w then b.x + b.w - r.w
    else r.x
  let ny : Int :=
    if b.h ≤ r.h then b.y + Int.tdiv b.h 2 - Int.tdiv r.h 2
    else if r.y < b.y then b.y
    else if b.y + b.h < r.y + r.h then b.y + b.h - r.h
    else r.y
  { r with x := nx, y := ny }

/-- Embeds pygame `A.contains(B)` (rect.c `rect_contains`):
`A.x <= B.x and A.y <= B.y and A.x+A.w >= B.x+B.w and A.y+A.h >= B.y+B.h
and A.x+A.w > B.x and A.y+A.h > B.y`. -/
def Rect.containsR (a b : Rect) : Prop :=
  a.x ≤ b.x ∧ a.y ≤ b.y ∧ b.x + b.w ≤ a.x + a.w ∧ b.y + b.h ≤ a.y + a.h ∧
    b.x < a.x + a.w ∧ b.y < a.y + a.h

instance (a b : Rect) : Decidable (a.containsR b) := by
  unfold Rect.containsR; infer_instance

/-- Embeds pygame `A.union_ip(B)` (rect.c `rect_union_ip`):
`x = min(A.x, B.x); y = min(A.y, B.y); w = max(A.right, B.right) - x;
h = max(A.bottom, B.bottom) - y`. -/
def Rect.unionR (a b : Rect) : Rect :=
  let nx := min a.x b.x
  let ny := min a.y b.y
  { x := nx, y := ny,
    w := max (a.x + a.w) (b.x + b.w) - nx,
    h := max (a.y + a.h) (b.y + b.h) - ny }

/-!
Named rectangle attributes.  `SHAPE_RECT_ATTRS` in `const.py` lists the
rect attributes that `ShapeMeta` re-exports on `Shape` as direct
read/write properties on the internal `_rect`; the same names are
accepted as keys of a `Cell`'s item-binding rules.
-/

/-- Embeds the attribute names of `SHAPE_RECT_ATTRS` in `const.py`:
`('bottom', 'bottomleft', 'bottomright', 'x', 'y', 'center', 'centerx',
'centery', 'h', 'left', 'midbottom', 'midleft', 'midright', 'midtop',
'right', 'size', 'top', 'topleft', 'topright', 'w')`. -/
inductive RectAttr where
  | bottom | bottomleft | bottomright | x | y
  | center | centerx | centery | h | left
  | midbottom | midleft | midright | midtop
  | right | size | top | topleft | topright | w
deriving DecidableEq, Repr

/-- Value written to or read from a rect attribute: a scalar for the
edge/size-component attributes, an `(x, y)` pair for the point attributes. -/
inductive RectVal where
  | i (n : Int)
  | p (q : Int × Int)
deriving DecidableEq, Repr

/-- Embeds the pygame rect attribute getters (rect.c): e.g. `right = x + w`,
`centerx = x + w/2`, `center = (centerx, centery)`, `size = (w, h)`. -/
def Rect.getAttr (r : Rect) : RectAttr → RectVal
  | .x => .i r.x
  | .left => .i r.x
  | .y => .i r.y
  | .top => .i r.y
  | .right => .i (r.x + r.w)
  | .bottom => .i (r.y + r.h)
  | .w => .i r.w
  | .h => .i r.h
  | .centerx => .i (r.x + Int.tdiv r.w 2)
  | .centery => .i (r.y + Int.tdiv r.h 2)
  | .center => .p (r.x + Int.tdiv r.w 2, r.y + Int.tdiv r.h 2)
  | .topleft => .p (r.x, r.y)
  | .topright => .p (r.x + r.w, r.y)
  | .bottomleft => .p (r.x, r.y + r.h)
  | .bottomright => .p (r.x + r.w, r.y + r.h)
  | .midtop => .p (r.x + Int.tdiv r.w 2, r.y)
  | .midbottom => .p (r.x + Int.tdiv r.w 2, r.y + r.h)
  | .midleft => .p (r.x, r.y + Int.tdiv r.h 2)
  | .midright => .p (r.x + r.w, r.y + Int.tdiv r.h 2)
  | .size => .p (r.w, r.h)

/-- Embeds the pygame rect attribute setters (rect.c): positional attributes
translate the rectangle so the named point lands on the value (e.g. setting
`right` does `x = val - w`, setting `center` does `x = cx - w/2; y = cy - h/2`);
`w`, `h` and `size` change the extent keeping `topleft` fixed.  A value of the
wrong kind (a pair for a scalar attribute or vice versa) raises `TypeError` in
Python; it is modelled as a no-op and is never exercised by the theorems. -/
def Rect.setAttr (r : Rect) : RectAttr → RectVal → Rect
  | .x, .i v => { r with x := v }
  | .left, .i v => { r with x := v }
  | .y, .i v => { r with y := v }
  | .top, .i v => { r with y := v }
  | .right, .i v => { r with x := v - r.w }
  | .bottom, .i v => { r with y := v - r.h }
  | .w, .i v => { r with w := v }
  | .h, .i v => { r with h := v }
  | .centerx, .i v => { r with x := v - Int.tdiv r.w 2 }
  | .centery, .i v => { r with y := v - Int.tdiv r.h 2 }
  | .center, .p q => { r with x := q.1 - Int.tdiv r.w 2, y := q.2 - Int.tdiv r.h 2 }
  | .topleft, .p q => { r with x := q.1, y := q.2 }
  | .topright, .p q => { r with x := q.1 - r.w, y := q.2 }
  | .bottomleft, .p q => { r with x := q.1, y := q.2 - r.h }
  | .bottomright, .p q => { r with x := q.1 - r.w, y := q.2 - r.h }
  | .midtop, .p q => { r with x := q.1 - Int.tdiv r.w 2, y := q.2 }
  | .midbottom, .p q => { r with x := q.1 - Int.tdiv r.w 2, y := q.2 - r.h }
  | .midleft, .p q => { r with x := q.1, y := q.2 - Int.tdiv r.h 2 }
  | .midright, .p q => { r with x := q.1 - r.w, y := q.2 - Int.tdiv r.h 2 }
  | .size, .p q => { r with w := q.1, h := q.2 }
  | _, _ => r

/-!
Surface resizing (`gameutils.surface_resize` / `gameUtils.surface_resize`).
A surface is represented by its pixel size.  Both variants guard the same
condition: `src/gameutils.py` raises `TypeError` via
`if any(d < 0 for d in (width, height))` and `src/src/gameUtils.py` raises
`ValueError` via `if width < 0 or height < 0`; on success
`pygame.transform.smoothscale` (or the `scale` fallback on `ValueError`)
returns a surface of exactly `(width, height)`.
-/

/-- Embeds `surface_resize(surface, width, height)`: error for a negative
width or height, otherwise a surface of exactly the requested size. -/
def surfaceResize (surface : Int × Int) (width height : Int) :
    Except Unit (Int × Int) :=
  -- smoothscale, or scale as the deterministic fallback: either way the
  -- result has exactly the requested size, whatever `surface` held
  if width < 0 ∨ height < 0 then .error () else .ok (width, height)

/-- CLAIM C1 (counterexample): the claim says `resize` fails for every
non-positive width or height, including zero; but `surface_resize` applied
to a 4x4 surface with width 0 succeeds, returning a degenerate 0x5
surface instead of taking the error branch. -/
theorem c1_zero_size_resize_accepted :
    surfaceResize (4, 4) 0 5 = Except.ok (0, 5) := by
  rfl

/-- CLAIM C1 (amended): `surface_resize(w, h)` takes its error branch exactly
when `w < 0` or `h < 0`; a zero width or height is accepted and produces a
degenerate surface of the requested (zero) size. -/
theorem c1_resize_error_iff_negative (surface : Int × Int) (width height : Int) :
    surfaceResize surface width height =
      (if width < 0 ∨ height < 0 then Except.error () else Except.ok (width, height)) := by
  unfold surfaceResize
  split <;> rfl

/-!
Shape (`src/src/baseObjects.py`).  A `Shape` owns a surface (`_surface`,
modelled by its pixel size) and a rect (`_rect`).  The metaclass `ShapeMeta`
installs, for every name in `SHAPE_RECT_ATTRS`, a property that reads and
writes the attribute directly on `_rect` (`getattr(inst._rect, attr)` /
`setattr(inst._rect, attr, val)`), without touching `_surface`.
-/

/-- Embeds `baseObjects.Shape`: the surface's pixel size and the rect. -/
structure PShape where
  surf : Int × Int
  rect : Rect
deriving DecidableEq, Repr

/-- Embeds the spec invariant `rect.size == buffer.size`. -/
def PShape.inv (s : PShape) : Prop :=
  s.rect.w = s.surf.1 ∧ s.rect.h = s.surf.2

instance (s : PShape) : Decidable s.inv := by
  unfold PShape.inv; infer_instance

/-- Embeds `Shape(None)`: a zero-sized surface and its rect. -/
def shapeNew : PShape :=
  { surf := (0, 0), rect := { x := 0, y := 0, w := 0, h := 0 } }

/-- Embeds `Shape(surface)`: copy the surface, `_rect = _surface.get_rect()`
(positioned at the origin with the surface's size). -/
def shapeFromSurface (size : Int × Int) : PShape :=
  { surf := size, rect := { x := 0, y := 0, w := size.1, h := size.2 } }

/-- Embeds `Shape(rect)`: `_rect = pygame.Rect(obj)` (a full copy, position
included) and `_surface = pygame.Surface(self._rect.size)`. -/
def shapeFromRect (r : Rect) : PShape :=
  { surf := (r.w, r.h), rect := r }

/-- Public `Shape` operations of `baseObjects.py` that touch the rect or the
surface.  `fitTo` carries the result of `self._rect.fit(rect)` as an explicit
parameter: pygame's `fit` computes the aspect-preserving rectangle in C
floating point, which is abstracted here because the size-synchronisation
invariant does not depend on which rectangle `fit` returns.  `setAttr` is an
assignment through one of the `ShapeMeta` properties. -/
inductive ShapeOp where
  | resize (w h : Int)
  | fitTo (result : Rect)
  | move (dx dy : Int)
  | moveAt (point : Int × Int) (anchor : RectAttr)
  | clampTo (r : Rect)
  | setAttr (a : RectAttr) (v : RectVal)
deriving Repr

/-- Embeds the corresponding `Shape` methods:
`resize`: `self._surface = gameUtils.surface_resize(self._surface, w, h);
self._rect.size = w, h`;
`fit`: `self._rect = self._rect.fit(rect); self._surface =
gameUtils.surface_resize(self._surface, self.w, self.h)`;
`move`: `self._rect.move_ip(x, y)`;
`move_at`: `setattr(self._rect, anchor, point)`;
`clamp`: `self._rect.clamp_ip(shape.rect)`;
attribute assignment: `setattr(inst._rect, attr, val)` via `ShapeMeta`. -/
def applyShapeOp (s : PShape) : ShapeOp → Except Unit PShape
  | .resize w h =>
      (surfaceResize s.surf w h).map
        (fun surf => { surf := surf, rect := { s.rect with w := w, h := h } })
  | .fitTo result =>
      (surfaceResize s.surf result.w result.h).map
        (fun surf => { surf := surf, rect := result })
  | .move dx dy => .ok { s with rect := s.rect.move dx dy }
  | .moveAt point anchor => .ok { s with rect := s.rect.setAttr anchor (.p point) }
  | .clampTo r => .ok { s with rect := s.rect.clamp r }
  | .setAttr a v => .ok { s with rect := s.rect.setAttr a v }

/-- Attributes whose `ShapeMeta` setter changes the rect's extent: `w`, `h`
and `size`; every other exposed attribute only translates the rect. -/
def RectAttr.isSizeAttr : RectAttr → Bool
  | .w => true
  | .h => true
  | .size => true
  | _ => false

/-- CLAIM C2 (counterexample): the claim says `rect.size == buffer.size`
holds after every public operation, including property assignment through
the exposed rect attributes; but on a 4x4 `Shape` the `ShapeMeta` property
assignment `shape.size = (9, 9)` writes only the rect, leaving the surface
at 4x4 and breaking the invariant. -/
theorem c2_size_attr_breaks_invariant :
    (shapeFromSurface (4, 4)).inv ∧
      applyShapeOp (shapeFromSurface (4, 4)) (.setAttr .size (.p (9, 9))) =
        .ok { surf := (4, 4), rect := { x := 0, y := 0, w := 9, h := 9 } } ∧
      ¬ (PShape.mk (4, 4) { x := 0, y := 0, w := 9, h := 9 }).inv := by
  refine ⟨by decide, rfl, by decide⟩

/-- Helper: the `ShapeMeta` setters for non-size attributes never change the
rect's extent. -/
theorem setAttr_preserves_size (r : Rect) (a : RectAttr) (v : RectVal)
    (ha : a.isSizeAttr = false) :
    (r.setAttr a v).w = r.w ∧ (r.setAttr a v).h = r.h := by
  cases a <;> cases v <;> simp_all [Rect.setAttr, RectAttr.isSizeAttr]

/-- Operations that write a rect attribute only through a non-size attribute
(both direct assignment and a `move_at` anchor can name any attribute in
`SHAPE_RECT_ATTRS`, including `size`). -/
def ShapeOp.keepsExtent : ShapeOp → Bool
  | .setAttr a _ => !a.isSizeAttr
  | .moveAt _ a => !a.isSizeAttr
  | _ => true

/-- CLAIM C2 (amended): `rect.size == buffer.size` holds after construction
(from nothing, a surface, a rect, or another shape) and is preserved by
`resize`, `fit`, `move`, `clamp`, and by `move_at` or attribute assignment
through any exposed rect attribute other than `w`, `h` and `size`; assigning
`w`, `h` or `size` (directly or as a `move_at` anchor) writes only the rect
and can break the invariant. -/
theorem c2_invariant_preserved_except_size_attrs :
    shapeNew.inv ∧ (∀ size, (shapeFromSurface size).inv) ∧
      (∀ r, (shapeFromRect r).inv) ∧
      ∀ (s : PShape) (op : ShapeOp), s.inv → op.keepsExtent = true →
        ∀ s', applyShapeOp s op = .ok s' → s'.inv := by
  refine ⟨⟨rfl, rfl⟩, fun size => ⟨rfl, rfl⟩, fun r => ⟨rfl, rfl⟩, ?_⟩
  intro s op hs hop s' h
  cases op with
  | resize w h' =>
      simp only [applyShapeOp, surfaceResize] at h
      split at h
      · simp [Except.map] at h
      · simp only [Except.map, Except.ok.injEq] at h
        subst h
        exact ⟨rfl, rfl⟩
  | fitTo result =>
      simp only [applyShapeOp, surfaceResize] at h
      split at h
      · simp [Except.map] at h
      · simp only [Except.map, Except.ok.injEq] at h
        subst h
        exact ⟨rfl, rfl⟩
  | move dx dy =>
      simp only [applyShapeOp, Except.ok.injEq] at h
      subst h
      exact ⟨hs.1, hs.2⟩
  | moveAt point anchor =>
      simp only [applyShapeOp, Except.ok.injEq] at h
      subst h
      simp only [ShapeOp.keepsExtent, Bool.not_eq_true'] at hop
      rcases setAttr_preserves_size s.rect anchor (.p point) hop with ⟨hw, hh⟩
      exact ⟨hw.trans hs.1, hh.trans hs.2⟩
  | clampTo r =>
      simp only [applyShapeOp, Except.ok.injEq] at h
      subst h
      exact ⟨hs.1, hs.2⟩
  | setAttr a v =>
      simp only [applyShapeOp, Except.ok.injEq] at h
      subst h
      simp only [ShapeOp.keepsExtent, Bool.not_eq_true'] at hop
      rcases setAttr_preserves_size s.rect a v hop with ⟨hw, hh⟩
      exact ⟨hw.trans hs.1, hh.trans hs.2⟩

/-- Witness for C2 (amended): a concrete move on a 4x4 shape keeps the
invariant. -/
theorem c2_invariant_preserved_witness :
    (PShape.mk (4, 4) { x := 3, y := 5, w := 4, h := 4 }).inv :=
  c2_invariant_preserved_except_size_attrs.2.2.2 (shapeFromSurface (4, 4))
    (.move 3 5) (by decide) (by decide)
    (PShape.mk (4, 4) { x := 3, y := 5, w := 4, h := 4 }) rfl

/-!
GameObject (`src/src/gameObjects.py` `GenericGameObject.move_bouncing`, and
the identical logic in `src/src/baseObjects.py` `GameObject.move_bouncing`):

    x, y = velocity if (None not in velocity) else self.velocity
    new_velocity = [x, y]
    if (self.rect.left + x <= bounce_rect.left or
        self.rect.right + x >= bounce_rect.right):
        new_velocity[0] = -x
    if (self.rect.bottom + y >= bounce_rect.bottom or
        self.rect.top + y <= bounce_rect.top):
        new_velocity[1] = -y
    self.move(x, y)
    self.clamp(bounce_rect)
    self.velocity = new_velocity
-/

/-- Embeds a game object: its rect and its velocity pair. -/
structure GObj where
  rect : Rect
  vel : Int × Int
deriving DecidableEq, Repr

/-- Embeds `move_bouncing(bounce_rect, velocity)`; `none` for `velocity`
models the `(None, None)` default, falling back to the object's velocity.
The flip conditions are evaluated on the pre-move rect, then the object is
moved by the unflipped delta, clamped into the bound, and only then is the
new velocity stored. -/
def moveBouncing (o : GObj) (bound : Rect) (velocity : Option (Int × Int)) :
    GObj :=
  let v := velocity.getD o.vel
  let x := v.1
  let y := v.2
  let nvx := if o.rect.left + x ≤ bound.left ∨ bound.right ≤ o.rect.right + x
    then -x else x
  let nvy := if bound.bottom ≤ o.rect.bottom + y ∨ o.rect.top + y ≤ bound.top
    then -y else y
  { rect := (o.rect.move x y).clamp bound, vel := (nvx, nvy) }

/-- Spec-side definition (claim C4's wording): moving by delta `d` pushes the
object's leading edge at or past the bound's corresponding edge on the
horizontal axis — for rightward motion the right edge reaches the bound's
right edge, for leftward motion the left edge reaches the bound's left edge. -/
def leadingEdgeHitX (r bound : Rect) (d : Int) : Prop :=
  (0 < d ∧ bound.right ≤ r.right + d) ∨ (d < 0 ∧ r.left + d ≤ bound.left)

/-- Spec-side definition (claim C4's wording), vertical axis: for downward
motion the bottom edge reaches the bound's bottom edge, for upward motion the
top edge reaches the bound's top edge. -/
def leadingEdgeHitY (r bound : Rect) (d : Int) : Prop :=
  (0 < d ∧ bound.bottom ≤ r.bottom + d) ∨ (d < 0 ∧ r.top + d ≤ bound.top)

instance (r bound : Rect) (d : Int) : Decidable (leadingEdgeHitX r bound d) := by
  unfold leadingEdgeHitX; infer_instance

instance (r bound : Rect) (d : Int) : Decidable (leadingEdgeHitY r bound d) := by
  unfold leadingEdgeHitY; infer_instance

/-- CLAIM C4 (counterexample): the claim says the stored velocity's sign is
flipped exactly when the leading edge would reach the bound's corresponding
edge; but for an object at x = -100 (width 10) moving right with delta 3
inside the bound (0,0,50,50), the code flips the x velocity to -3 (its *left*
edge satisfies `left + x <= bound.left`) although the leading (right) edge
at -90 comes nowhere near the bound's right edge at 50. -/
theorem c4_flip_not_leading_edge_only :
    (moveBouncing ⟨⟨-100, 0, 10, 5⟩, (3, 4)⟩ ⟨0, 0, 50, 50⟩ none).vel.1 = -3 ∧
      ¬ leadingEdgeHitX ⟨-100, 0, 10, 5⟩ ⟨0, 0, 50, 50⟩ 3 := by
  decide

/-- CLAIM C4 (amended): one `move_bouncing(bound)` call moves the object by
the original velocity, then clamps into `bound`, and only then stores the new
velocity; the stored sign on an axis is flipped exactly when either object
edge moved by the delta is at or past the corresponding bound edge — which,
for an object starting contained in `bound` with nonzero deltas (as here),
is precisely the leading-edge condition of the claim.  The current move never
uses the flipped delta. -/
theorem c4_bounce_order_and_flip (o : GObj) (bound : Rect)
    (hc : bound.containsR o.rect) (hx : o.vel.1 ≠ 0) (hy : o.vel.2 ≠ 0) :
    (moveBouncing o bound none).rect =
        (o.rect.move o.vel.1 o.vel.2).clamp bound ∧
      (moveBouncing o bound none).vel.1 =
        (if leadingEdgeHitX o.rect bound o.vel.1 then -o.vel.1 else o.vel.1) ∧
      (moveBouncing o bound none).vel.2 =
        (if leadingEdgeHitY o.rect bound o.vel.2 then -o.vel.2 else o.vel.2) := by
  obtain ⟨h1, h2, h3, h4, h5, h6⟩ := hc
  refine ⟨rfl, ?_, ?_⟩
  · show (if o.rect.left + o.vel.1 ≤ bound.left ∨
        bound.right ≤ o.rect.right + o.vel.1 then -o.vel.1 else o.vel.1) = _
    unfold Rect.left Rect.right leadingEdgeHitX Rect.left Rect.right at *
    rcases lt_trichotomy o.vel.1 0 with hneg | hzero | hpos
    · split <;> split <;> omega
    · exact absurd hzero hx
    · split <;> split <;> omega
  · show (if bound.bottom ≤ o.rect.bottom + o.vel.2 ∨
        o.rect.top + o.vel.2 ≤ bound.top then -o.vel.2 else o.vel.2) = _
    unfold Rect.top Rect.bottom leadingEdgeHitY Rect.top Rect.bottom at *
    rcases lt_trichotomy o.vel.2 0 with hneg | hzero | hpos
    · split <;> split <;> omega
    · exact absurd hzero hy
    · split <;> split <;> omega

/-- Witness for C4 (amended): a 5x5 object at (10,10) with velocity (3,-2)
inside the bound (0,0,50,50). -/
theorem c4_bounce_order_and_flip_witness :
    (moveBouncing ⟨⟨10, 10, 5, 5⟩, (3, -2)⟩ ⟨0, 0, 50, 50⟩ none).rect =
        ((Rect.mk 10 10 5 5).move 3 (-2)).clamp ⟨0, 0, 50, 50⟩ ∧
      (moveBouncing ⟨⟨10, 10, 5, 5⟩, (3, -2)⟩ ⟨0, 0, 50, 50⟩ none).vel.1 =
        (if leadingEdgeHitX ⟨10, 10, 5, 5⟩ ⟨0, 0, 50, 50⟩ 3 then -3 else 3) ∧
      (moveBouncing ⟨⟨10, 10, 5, 5⟩, (3, -2)⟩ ⟨0, 0, 50, 50⟩ none).vel.2 =
        (if leadingEdgeHitY ⟨10, 10, 5, 5⟩ ⟨0, 0, 50, 50⟩ (-2) then 2 else -2) :=
  c4_bounce_order_and_flip ⟨⟨10, 10, 5, 5⟩, (3, -2)⟩ ⟨0, 0, 50, 50⟩
    (by decide) (by decide) (by decide)

/-- Helper: `clamp` leaves the extent unchanged and, for a rectangle that
fits inside the bound (positive extent no larger than the bound's), the
clamped rectangle is contained in the bound in pygame's `contains` sense. -/
theorem clamp_contains (r b : Rect)
    (hw0 : 0 < r.w) (hw : r.w ≤ b.w) (hh0 : 0 < r.h) (hh : r.h ≤ b.h) :
    b.containsR (r.clamp b) := by
  unfold Rect.clamp Rect.containsR
  refine ⟨?_, ?_, ?_, ?_, ?_, ?_⟩ <;> simp only <;> split_ifs <;> try omega
  all_goals
    (first
      | (have hbw : r.w = b.w := by omega
         rw [hbw]; omega)
      | (have hbh : r.h = b.h := by omega
         rw [hbh]; omega))

/-- Helper: `move_bouncing` never changes the object's extent
(`move` and `clamp` only translate the rect). -/
theorem moveBouncing_preserves_extent (o : GObj) (bound : Rect)
    (v : Option (Int × Int)) :
    (moveBouncing o bound v).rect.w = o.rect.w ∧
      (moveBouncing o bound v).rect.h = o.rect.h :=
  ⟨rfl, rfl⟩

/-- Embeds a sequence of `n` successive `move_bouncing(bound)` calls with the
default velocity argument (the object's own velocity, whose per-axis
magnitude `move_bouncing` preserves since it only negates components). -/
def bounceIter (bound : Rect) (o : GObj) : Nat → GObj
  | 0 => o
  | n + 1 => moveBouncing (bounceIter bound o n) bound none

/-- CLAIM C5 (counterexample): the claim asks only that the object's rect
fit inside the bound and start contained, with no positivity condition on
its extent (the spec's Rectangle invariant allows `width, height ≥ 0`).
A zero-width object at (10,10,0,5) fits inside the bound (0,0,50,50) and
starts contained (pygame's strict `contains` conjuncts compare the *bound's*
corner against the object's far edges, which a zero extent does not
falsify); but one `move_bouncing` call with velocity (45,1) moves it past
the right edge and the final clamp parks it exactly at `x = bound.right`,
where `contains` is false (`B.x < A.x + A.w` fails at `50 < 50`). -/
theorem c5_zero_extent_bounce_leaves_containment :
    (Rect.mk 0 0 50 50).containsR (Rect.mk 10 10 0 5) ∧
      (Rect.mk 10 10 0 5).w ≤ (Rect.mk 0 0 50 50).w ∧
      (Rect.mk 10 10 0 5).h ≤ (Rect.mk 0 0 50 50).h ∧
      ¬ (Rect.mk 0 0 50 50).containsR
        (bounceIter ⟨0, 0, 50, 50⟩ ⟨⟨10, 10, 0, 5⟩, (45, 1)⟩ 1).rect := by
  decide

/-- CLAIM C5 (amended): for a GameObject whose rect has *positive* extent no
larger than the bound's and starts contained in it, `bound.contains
(object.rect)` holds after every one of any number of repeated
`move_bouncing(bound)` calls: each call ends with a clamp into the bound,
which restores containment whatever the move did.  Zero-extent objects must
be excluded: clamping a degenerate object that crossed an edge parks it
exactly on that edge, where pygame's `contains` is false (see the
counterexample above). -/
theorem c5_bounce_stays_in_bound (o : GObj) (bound : Rect)
    (hw0 : 0 < o.rect.w) (hw : o.rect.w ≤ bound.w)
    (hh0 : 0 < o.rect.h) (hh : o.rect.h ≤ bound.h)
    (hstart : bound.containsR o.rect) :
    ∀ n : Nat, bound.containsR (bounceIter bound o n).rect := by
  have hext : ∀ n, (bounceIter bound o n).rect.w = o.rect.w ∧
      (bounceIter bound o n).rect.h = o.rect.h := by
    intro n
    induction n with
    | zero => exact ⟨rfl, rfl⟩
    | succ k ih => exact ih
  intro n
  cases n with
  | zero => exact hstart
  | succ k =>
      have hk := hext k
      show bound.containsR (moveBouncing (bounceIter bound o k) bound none).rect
      unfold moveBouncing
      exact clamp_contains _ bound (by simp [Rect.move, hk.1]; omega)
        (by simp [Rect.move, hk.1]; omega)
        (by simp [Rect.move, hk.2]; omega)
        (by simp [Rect.move, hk.2]; omega)

/-- Witness for C5: a 5x5 object at (40,40) with velocity (7,9) bounced in
the bound (0,0,50,50), checked after the 6th call. -/
theorem c5_bounce_stays_in_bound_witness :
    (Rect.mk 0 0 50 50).containsR
      (bounceIter ⟨0, 0, 50, 50⟩ ⟨⟨40, 40, 5, 5⟩, (7, 9)⟩ 6).rect :=
  c5_bounce_stays_in_bound ⟨⟨40, 40, 5, 5⟩, (7, 9)⟩ ⟨0, 0, 50, 50⟩
    (by decide) (by decide) (by decide) (by decide) (by decide) 6

/-!
Cell (`src/src/gameObjects.py`): a game object with one optional bound item
and an ordered rule set `_item_attrs` (a `collections.OrderedDict`, iterated
in insertion order; the theorems use rule lists with distinct keys, matching
how `OrderedDict` stores them).  `update_item` walks the rules in order and
writes each evaluated value onto the item's rect:

    for attr, value in self._item_attrs.items():
        if value is None:
            setattr(self.item.rect, attr, getattr(self.rect, attr))
        elif callable(value):
            setattr(self.item.rect, attr, value())
        elif isinstance(value, str):
            setattr(self.item.rect, attr, getattr(self.rect, value))
        else:
            setattr(self.item.rect, attr, value)

`move`, `move_at`, `move_bouncing` (with `union=False`, its default) and
`resize` (with `update=True`, its default) each perform the inherited
geometric operation and then call `update_item`.
-/

/-- Embeds one item-binding rule value: `None` (same-named cell attribute),
a zero-argument callable, a string naming a cell rect attribute, or a plain
value written directly. -/
inductive Rule where
  | same
  | thunk (f : Unit → RectVal)
  | attrRef (a : RectAttr)
  | value (v : RectVal)

/-- Embeds the rule evaluation for target attribute `a` in `update_item`. -/
def evalRule (cellRect : Rect) (a : RectAttr) : Rule → RectVal
  | .same => cellRect.getAttr a
  | .thunk f => f ()
  | .attrRef b => cellRect.getAttr b
  | .value v => v

/-- Embeds the `update_item` loop body: apply every rule in order, writing
each evaluated value onto the item's rect. -/
def applyRules (cellRect : Rect) (rules : List (RectAttr × Rule)) (ir : Rect) :
    Rect :=
  rules.foldl (fun acc p => acc.setAttr p.1 (evalRule cellRect p.1 p.2)) ir

/-- Embeds `gameObjects.Cell`: its own rect and velocity (from
`GenericGameObject`), the optional bound item's rect, and the ordered rule
set `_item_attrs`. -/
structure Cell where
  rect : Rect
  vel : Int × Int
  item : Option Rect
  rules : List (RectAttr × Rule)

/-- Embeds `Cell.update_item`: a no-op without an item, otherwise rewrite
the item's rect through the rule set against the cell's current rect. -/
def cellUpdateItem (c : Cell) : Cell :=
  match c.item with
  | none => c
  | some ir => { c with item := some (applyRules c.rect c.rules ir) }

/-- Public `Cell` movement/resize calls of claim C3, with their default
arguments (`velocity=(None,None)`, `union=False`, `update=True`).  `resize`
takes `Nat` sizes: negative sizes raise in `surface_resize` before any state
changes and are not modelled. -/
inductive CellOp where
  | move (x y : Int)
  | moveAt (position : Int × Int) (anchor : RectAttr)
  | moveB (bound : Rect)
  | resize (w h : Nat)

/-- Embeds the `Cell` methods: each performs the inherited geometric
operation (`GenericGameObject.move` / `move_at` / `move_bouncing` /
`resize`) and then calls `update_item`. -/
def applyCellOp (c : Cell) : CellOp → Cell
  | .move x y => cellUpdateItem { c with rect := c.rect.move x y }
  | .moveAt position anchor =>
      cellUpdateItem { c with rect := c.rect.setAttr anchor (.p position) }
  | .moveB bound =>
      let g := moveBouncing ⟨c.rect, c.vel⟩ bound none
      cellUpdateItem { c with rect := g.rect, vel := g.vel }
  | .resize w h =>
      cellUpdateItem { c with rect := { c.rect with w := (w : Int), h := (h : Int) } }

/-- CLAIM C3 (counterexample): the claim says that after each call the item's
rect equals the value obtained by freshly evaluating the rule set against the
current cell rect; but with the rule set `{'center': (10, 10), 'w': 33}` on a
5x5 item, after `move(1, 1)` the item's rect is (8, 8, 33, 5) (center was
applied while the item was still 5 wide), while a fresh evaluation of the
same rules now yields (-6, 8, 33, 5): the stored rect is not a fixed point of
re-evaluation. -/
theorem c3_fresh_evaluation_differs :
    (applyCellOp ⟨⟨0, 0, 20, 20⟩, (5, 7), some ⟨0, 0, 5, 5⟩,
        [(.center, .value (.p (10, 10))), (.w, .value (.i 33))]⟩
      (.move 1 1)).item = some ⟨8, 8, 33, 5⟩ ∧
    applyRules ⟨1, 1, 20, 20⟩
        [(.center, .value (.p (10, 10))), (.w, .value (.i 33))] ⟨8, 8, 33, 5⟩ =
      ⟨-6, 8, 33, 5⟩ ∧
    (⟨-6, 8, 33, 5⟩ : Rect) ≠ ⟨8, 8, 33, 5⟩ := by
  refine ⟨rfl, rfl, by decide⟩

/-- CLAIM C3 (amended): after every `move` / `move_at` / `move_bouncing` /
`resize` call (with default arguments) the item's rect equals the rule set
applied, in insertion order and against the cell's post-operation rect, to
the item's *pre-call* rect, and the rule set itself is unchanged — i.e.
`update_item` runs after every such call; the result coincides with a fresh
re-evaluation whenever the rule set's application is idempotent (as for the
default `{'center': None}` rule), but not for rule sets that mix positional
and size attributes. -/
theorem c3_item_follows_rules (c : Cell) (op : CellOp) (ir : Rect)
    (hitem : c.item = some ir) :
    (applyCellOp c op).item =
        some (applyRules (applyCellOp c op).rect c.rules ir) ∧
      (applyCellOp c op).rules = c.rules := by
  cases op <;> simp [applyCellOp, cellUpdateItem, hitem]

/-- Witness for C3 (amended): the default centering rule on a concrete cell
after `move(3, 4)`. -/
theorem c3_item_follows_rules_witness :
    (applyCellOp ⟨⟨0, 0, 20, 20⟩, (5, 7), some ⟨0, 0, 4, 4⟩,
          [(.center, .same)]⟩ (.move 3 4)).item =
        some (applyRules
          (applyCellOp ⟨⟨0, 0, 20, 20⟩, (5, 7), some ⟨0, 0, 4, 4⟩,
            [(.center, .same)]⟩ (.move 3 4)).rect
          [(.center, .same)] ⟨0, 0, 4, 4⟩) ∧
      (applyCellOp ⟨⟨0, 0, 20, 20⟩, (5, 7), some ⟨0, 0, 4, 4⟩,
          [(.center, .same)]⟩ (.move 3 4)).rules = [(.center, .same)] :=
  c3_item_follows_rules _ (.move 3 4) ⟨0, 0, 4, 4⟩ rfl

/-!
Table (`src/gameutils.py` and `src/src/gameUtils.py`, identical logic).
`Table.__init__` builds the backing dict as

    self._grid = dict(
        it.takewhile(lambda args: args[0] != empty,
                     it.izip_longest(self.iter_pos(), seq, fillvalue=empty)))

`izip_longest` pads the shorter of the two iterators with the sentinel, and
the `takewhile` guard compares `args[0]` — the *position*, not the sequence
item — with the sentinel.  In Lean the cross-typed pad of the position side
cannot even be written, so `zipPad` below keeps the real positions and pads
only the value side, which cuts exactly where `takewhile` cuts: at the point
where the positions run out.  (A sentinel equal to a `(row, col)` integer
pair could make the guard fire early in Python; neither the default
sentinels — `None` and `EmptyObject` — nor any value used by the claims can
equal a position tuple, so this is not modelled.)  A `dict` keeps the last
binding of a key, but the positions produced by `iter_pos` are pairwise
distinct, so a first-match lookup is equivalent.
-/

/-- Embeds `Table.iter_pos`: row-major `(row, col)` positions. -/
def iterPos (nrows ncols : Nat) : List (Nat × Nat) :=
  (List.range nrows).flatMap (fun r => (List.range ncols).map (fun c => (r, c)))

/-- Embeds `takewhile(args[0] != empty, izip_longest(positions, seq,
fillvalue=empty))`: every position is paired with the corresponding item of
`seq`, or with the sentinel once `seq` is exhausted; pairs past the end of
the positions are cut by the guard. -/
def zipPad {α : Type*} : List (Nat × Nat) → List α → α → List ((Nat × Nat) × α)
  | [], _, _ => []
  | q :: ps, [], e => (q, e) :: zipPad ps [] e
  | q :: ps, v :: vs, e => (q, v) :: zipPad ps vs e

/-- Embeds the dict lookup `self._grid[item]` (`none` models `KeyError`);
first match, equivalent to the dict's last-wins rule because the stored keys
are pairwise distinct. -/
def lookupFirst {α : Type*} : List ((Nat × Nat) × α) → (Nat × Nat) → Option α
  | [], _ => none
  | (q, v) :: rest, p => if q = p then some v else lookupFirst rest p

/-- Index of the first occurrence of a position in a list (proof device for
reasoning about `lookupFirst` over `zipPad`). -/
def posIdx : List (Nat × Nat) → (Nat × Nat) → Option Nat
  | [], _ => none
  | q :: rest, p => if q = p then some 0 else (posIdx rest p).map (· + 1)

/-- Embeds `gameutils.Table`: dimensions, the empty sentinel, and the
backing `(position, value)` association built by `__init__`. -/
structure Table (α : Type*) where
  nrows : Nat
  ncols : Nat
  empty : α
  assoc : List ((Nat × Nat) × α)

/-- Embeds `Table(rows, columns, empty, seq)`. -/
def tableInit {α : Type*} (nrows ncols : Nat) (empty : α) (seq : List α) :
    Table α :=
  ⟨nrows, ncols, empty, zipPad (iterPos nrows ncols) seq empty⟩

/-- Embeds `table[row, col]` (`Table.__getitem__`); `none` is a `KeyError`. -/
def Table.getItem {α : Type*} (t : Table α) (p : Nat × Nat) : Option α :=
  lookupFirst t.assoc p

/-- Helper: `zipPad` uncurried one step. -/
theorem zipPad_cons {α : Type*} (q : Nat × Nat) (ps : List (Nat × Nat))
    (vs : List α) (e : α) :
    zipPad (q :: ps) vs e = (q, vs.getD 0 e) :: zipPad ps (vs.drop 1) e := by
  cases vs <;> rfl

/-- Helper: dropping one element shifts `getD` by one. -/
theorem drop_one_getD {α : Type*} (vs : List α) (i : Nat) (e : α) :
    (vs.drop 1).getD i e = vs.getD (i + 1) e := by
  cases vs <;> simp [List.getD]

/-- Helper: looking a position up in the padded zip returns the `seq` item at
the position's index (or the sentinel past the end of `seq`). -/
theorem lookupFirst_zipPad {α : Type*} (ps : List (Nat × Nat)) (vs : List α)
    (e : α) (p : Nat × Nat) :
    lookupFirst (zipPad ps vs e) p = (posIdx ps p).map (fun i => vs.getD i e) := by
  induction ps generalizing vs with
  | nil => rfl
  | cons q ps ih =>
      rw [zipPad_cons]
      by_cases hq : q = p
      · simp [lookupFirst, posIdx, hq]
      · simp only [lookupFirst, posIdx, hq, if_false]
        rw [ih]
        cases hpi : posIdx ps p <;> simp [hpi, drop_one_getD]

/-- Helper: a hit in the front part of an appended list wins. -/
theorem posIdx_append_some (l1 l2 : List (Nat × Nat)) (p : Nat × Nat) (i : Nat)
    (h : posIdx l1 p = some i) : posIdx (l1 ++ l2) p = some i := by
  induction l1 generalizing i with
  | nil => simp [posIdx] at h
  | cons q l1 ih =>
      simp only [List.cons_append, posIdx] at h ⊢
      by_cases hq : q = p
      · simpa [hq] using h
      · simp only [hq, if_false] at h ⊢
        cases hpi : posIdx l1 p with
        | none => simp [hpi] at h
        | some k =>
            rw [hpi, Option.map_some'] at h
            rw [List.append_eq, ih k hpi, Option.map_some']
            exact h

/-- Helper: a miss in the front part defers to the back part, with the index
shifted by the front part's length. -/
theorem posIdx_append_none (l1 l2 : List (Nat × Nat)) (p : Nat × Nat)
    (h : posIdx l1 p = none) :
    posIdx (l1 ++ l2) p = (posIdx l2 p).map (· + l1.length) := by
  induction l1 with
  | nil => cases hpi : posIdx l2 p <;> simp [hpi]
  | cons q l1 ih =>
      simp only [List.cons_append, posIdx] at h ⊢
      by_cases hq : q = p
      · simp [hq] at h
      · simp only [hq, if_false] at h ⊢
        cases hpi : posIdx l1 p with
        | some k => simp [hpi] at h
        | none =>
            rw [List.append_eq, ih hpi]
            cases hp2 : posIdx l2 p with
            | none => simp
            | some k =>
                simp only [Option.map_some', List.length_cons,
                  Option.some.injEq]
                omega

/-- Helper: position index within a single row of `iter_pos`. -/
theorem posIdx_row (nc : Nat) (r rr cc : Nat) :
    posIdx ((List.range nc).map (fun c => (r, c))) (rr, cc) =
      if rr = r ∧ cc < nc then some cc else none := by
  induction nc with
  | zero => simp [posIdx]
  | succ n ih =>
      rw [List.range_succ, List.map_append]
      by_cases hfront : rr = r ∧ cc < n
      · rw [posIdx_append_some _ _ _ cc (by rw [ih, if_pos hfront])]
        rw [if_pos ⟨hfront.1, by omega⟩]
      · rw [posIdx_append_none _ _ _ (by rw [ih, if_neg hfront])]
        by_cases hlast : rr = r ∧ cc = n
        · obtain ⟨h1, h2⟩ := hlast
          subst h1
          subst h2
          simp [posIdx]
        · have hne : ¬ (((r, n) : Nat × Nat) = (rr, cc)) := by
            intro he
            injection he with e1 e2
            exact hlast ⟨e1.symm, e2.symm⟩
          simp only [List.map_cons, List.map_nil, posIdx, hne, if_false,
            Option.map_none']
          rw [if_neg (by omega)]

/-- Helper: `iter_pos` of one more row. -/
theorem iterPos_succ (nr nc : Nat) :
    iterPos (nr + 1) nc =
      iterPos nr nc ++ (List.range nc).map (fun c => (nr, c)) := by
  unfold iterPos
  rw [List.range_succ, List.flatMap_append]
  simp

/-- Helper: `iter_pos` yields `nrows * ncols` positions. -/
theorem iterPos_length (nr nc : Nat) : (iterPos nr nc).length = nr * nc := by
  induction nr with
  | zero => simp [iterPos]
  | succ n ih =>
      rw [iterPos_succ, List.length_append, ih, List.length_map,
        List.length_range]
      ring

/-- Helper: the first (and only) occurrence of `(r, c)` in `iter_pos` is at
the row-major index `r * ncols + c`. -/
theorem posIdx_iterPos (nr nc r c : Nat) :
    posIdx (iterPos nr nc) (r, c) =
      if r < nr ∧ c < nc then some (r * nc + c) else none := by
  induction nr with
  | zero => simp [iterPos, posIdx]
  | succ n ih =>
      rw [iterPos_succ]
      by_cases hfront : r < n ∧ c < nc
      · rw [posIdx_append_some _ _ _ (r * nc + c) (by rw [ih, if_pos hfront])]
        rw [if_pos (by omega)]
      · rw [posIdx_append_none _ _ _ (by rw [ih, if_neg hfront])]
        rw [posIdx_row, iterPos_length]
        by_cases hlast : r = n ∧ c < nc
        · obtain ⟨h1, h2⟩ := hlast
          subst h1
          rw [if_pos ⟨rfl, h2⟩, if_pos (by omega), Option.map_some']
          rw [Nat.add_comm]
        · rw [if_neg hlast, if_neg (by omega)]
          simp

/-- Helper: closed form of the constructed table's lookup — exactly the
in-range positions are present, holding the row-major `seq` item or the
sentinel once `seq` is exhausted. -/
theorem tableInit_getItem {α : Type*} (nr nc : Nat) (e : α) (seq : List α)
    (r c : Nat) :
    (tableInit nr nc e seq).getItem (r, c) =
      if r < nr ∧ c < nc then some (seq.getD (r * nc + c) e) else none := by
  unfold tableInit Table.getItem
  simp only
  rw [lookupFirst_zipPad, posIdx_iterPos]
  split <;> simp

/-- Spec-side construction, modelled from the claim's words (C6): fill
row-major but stop as soon as the source sequence is exhausted *or an element
equal to the empty sentinel is encountered in it*, whichever comes first;
remaining positions get the sentinel.  Stopping at a sentinel element is the
same as filling from `seq.takeWhile (· ≠ empty)`. -/
def tableInitSpec {α : Type*} [DecidableEq α] (nrows ncols : Nat) (empty : α)
    (seq : List α) : Table α :=
  ⟨nrows, ncols, empty,
    zipPad (iterPos nrows ncols) (seq.takeWhile (fun v => decide (v ≠ empty)))
      empty⟩

/-- CLAIM C6 (counterexample): the claim says filling stops at the first
`seq` element equal to the empty sentinel; but the `takewhile` guard in the
code inspects the *position* (`args[0]`), not the item, so for
`Table(1, 3, empty=0, seq=[1, 0, 2])` position `(0, 2)` holds `2`, whereas
under the claim's stop-at-sentinel reading it would hold the sentinel `0`. -/
theorem c6_sentinel_in_seq_does_not_stop_fill :
    (tableInit 1 3 (0 : Int) [1, 0, 2]).getItem (0, 2) = some 2 ∧
      (tableInitSpec 1 3 (0 : Int) [1, 0, 2]).getItem (0, 2) = some 0 := by
  constructor <;> rfl

/-- CLAIM C6 (amended): `Table(rows, columns, empty, seq)` assigns `seq`'s
items to positions in row-major order, stopping only when the positions or
`seq` are exhausted; an element of `seq` equal to the empty sentinel is
stored like any other value and does not stop the fill; every remaining
in-range position gets the empty sentinel, and out-of-range positions are
absent (`KeyError`). -/
theorem c6_row_major_fill {α : Type*} (nr nc : Nat) (e : α) (seq : List α)
    (r c : Nat) :
    (tableInit nr nc e seq).getItem (r, c) =
      if r < nr ∧ c < nc then some (seq.getD (r * nc + c) e) else none :=
  tableInit_getItem nr nc e seq r c

/-!
Table rotation (`Table.rotated`):

    seq = it.chain(*list(x[::-1] for x in zip(*self.rows)))
    return Table(self._col, self._row, empty=self.empty, seq=seq)

`self.rows` reads `self[row, col]` for every in-range position (a `KeyError`
cannot occur on a table built by `Table.__init__`, which binds every in-range
position); for that rectangular list of rows, `zip(*rows)` is its transpose:
the list of columns.  Each column is reversed and the results are chained
into the row-major source sequence of the new `columns x rows` table.
-/

/-- Embeds `self[row, col]` as a total accessor: the stored value, or the
sentinel at an absent position (never hit on tables built by `tableInit`). -/
def Table.getAt {α : Type*} (t : Table α) (r c : Nat) : α :=
  (t.getItem (r, c)).getD t.empty

/-- Embeds `zip(*self.rows)`: the list of columns of the table. -/
def Table.colsList {α : Type*} (t : Table α) : List (List α) :=
  (List.range t.ncols).map (fun c => (List.range t.nrows).map (fun r => t.getAt r c))

/-- Embeds `Table.rotated`. -/
def Table.rotated {α : Type*} (t : Table α) : Table α :=
  tableInit t.ncols t.nrows t.empty ((t.colsList.map List.reverse).flatten)

/-- Helper: `getD` into a flattened list of equal-length blocks picks from
block `i` at offset `j`. -/
theorem flatten_getD_uniform {α : Type*} (blocks : List (List α)) (m : Nat)
    (hb : ∀ b ∈ blocks, b.length = m) (i j : Nat) (hi : i < blocks.length)
    (hj : j < m) (e : α) :
    blocks.flatten.getD (i * m + j) e = (blocks.getD i []).getD j e := by
  induction blocks generalizing i with
  | nil => simp at hi
  | cons b bs ih =>
      have hbl : b.length = m := hb b (by simp)
      cases i with
      | zero =>
          rw [List.flatten_cons, List.getD_append _ _ _ _ (by omega)]
          simp
      | succ k =>
          rw [List.flatten_cons, Nat.succ_mul,
            List.getD_append_right _ _ _ _ (by omega)]
          have hidx : k * m + m + j - b.length = k * m + j := by omega
          rw [hidx, ih (fun b' hb' => hb b' (by simp [hb'])) k
            (by simpa using hi)]
          simp

/-- Helper: `getD` into a reversed list reads from the mirrored index. -/
theorem reverse_getD {α : Type*} (l : List α) (j : Nat) (hj : j < l.length)
    (e : α) :
    l.reverse.getD j e = l.getD (l.length - 1 - j) e := by
  have h1 : j < l.reverse.length := by simpa using hj
  rw [List.getD_eq_getElem _ _ h1, List.getElem_reverse,
    List.getD_eq_getElem _ _ (by omega)]

/-- Helper: a rotated table holds, at `(i, j)`, the source value at
`(nrows - 1 - j, i)` — the 90-degree rotation of the stored mapping. -/
theorem rotated_getItem {α : Type*} (t : Table α) (i j : Nat)
    (hi : i < t.ncols) (hj : j < t.nrows) :
    t.rotated.getItem (i, j) = some (t.getAt (t.nrows - 1 - j) i) := by
  unfold Table.rotated
  rw [tableInit_getItem, if_pos ⟨hi, hj⟩]
  congr 1
  have hilen : i < (t.colsList.map List.reverse).length := by
    simp [Table.colsList, hi]
  rw [flatten_getD_uniform _ t.nrows ?_ i j hilen hj]
  · rw [List.getD_eq_getElem _ _ hilen]
    rw [List.getElem_map]
    have hic : i < t.colsList.length := by simp [Table.colsList, hi]
    have hcol : t.colsList[i] =
        (List.range t.nrows).map (fun r => t.getAt r i) := by
      simp [Table.colsList]
    rw [hcol, reverse_getD _ _ (by simpa using hj)]
    have hlen : ((List.range t.nrows).map (fun r => t.getAt r i)).length =
        t.nrows := by simp
    rw [hlen, List.getD_eq_getElem _ _ (by simp; omega)]
    simp
  · intro b hbmem
    simp only [Table.colsList, List.mem_map] at hbmem
    obtain ⟨col, ⟨cidx, _, hcoldef⟩, hrev⟩ := hbmem
    subst hrev
    subst hcoldef
    simp

/-- Helper: the same as `rotated_getItem` through the total accessor. -/
theorem rotated_getAt {α : Type*} (t : Table α) (i j : Nat)
    (hi : i < t.ncols) (hj : j < t.nrows) :
    t.rotated.getAt i j = t.getAt (t.nrows - 1 - j) i := by
  show (t.rotated.getItem (i, j)).getD t.rotated.empty = _
  rw [rotated_getItem t i j hi hj]
  rfl

/-- CLAIM C7 (confirmed): on a table all of whose in-range positions hold an
entry, four applications of `rotated()` reproduce the original
`(row, col) -> value` mapping (the source table is never mutated: `rotated`
only reads it and builds a fresh table). -/
theorem c7_rotated_four_times_identity {α : Type*} (t : Table α)
    (hfull : ∀ r, r < t.nrows → ∀ c, c < t.ncols →
      t.getItem (r, c) = some (t.getAt r c))
    (r c : Nat) (hr : r < t.nrows) (hc : c < t.ncols) :
    t.rotated.rotated.rotated.rotated.getItem (r, c) = t.getItem (r, c) := by
  rw [rotated_getItem (t.rotated.rotated.rotated) r c hr hc]
  simp only [show (t.rotated.rotated.rotated).nrows = t.ncols from rfl]
  rw [rotated_getAt (t.rotated.rotated) (t.ncols - 1 - c) r
    (show t.ncols - 1 - c < t.ncols by omega) hr]
  simp only [show (t.rotated.rotated).nrows = t.nrows from rfl]
  rw [rotated_getAt (t.rotated) (t.nrows - 1 - r) (t.ncols - 1 - c)
    (show t.nrows - 1 - r < t.nrows by omega)
    (show t.ncols - 1 - c < t.ncols by omega)]
  simp only [show (t.rotated).nrows = t.ncols from rfl]
  rw [show t.ncols - 1 - (t.ncols - 1 - c) = c by omega]
  rw [rotated_getAt t c (t.nrows - 1 - r) hc
    (show t.nrows - 1 - r < t.nrows by omega)]
  rw [show t.nrows - 1 - (t.nrows - 1 - r) = r by omega]
  rw [hfull r hr c hc]

/-- Witness for C7: a full 2x3 integer table, checked at position (1, 2). -/
theorem c7_rotated_four_times_identity_witness :
    (tableInit 2 3 (0 : Int)
        [1, 2, 3, 4, 5, 6]).rotated.rotated.rotated.rotated.getItem (1, 2) =
      (tableInit 2 3 (0 : Int) [1, 2, 3, 4, 5, 6]).getItem (1, 2) :=
  c7_rotated_four_times_identity (tableInit 2 3 (0 : Int) [1, 2, 3, 4, 5, 6])
    (by decide) 1 2 (by decide) (by decide)

/-!
Table diagonal (`Table.diagonal(row=0, col=0, topright=False)`):

    values = []
    endcol = (self._col, -1)[topright]
    stepcol = (1, -1)[topright]
    for pos in zip(range(row, self._row), range(col, endcol, stepcol)):
        values.append(self[pos])
    return values

Its docstring promises: "Raise KeyError for *row* or *col* values out of
index."  The walk pairs the row range with the column range, truncating to
the shorter one, and looks each position up (a missing key raises KeyError).
-/

/-- Embeds Python `range(a, b)` (step 1, empty when `b <= a`). -/
def rangeFromTo (a b : Nat) : List Nat :=
  (List.range (b - a)).map (· + a)

/-- Embeds Python `range(c, -1, -1)`: `c, c-1, ..., 0`. -/
def rangeDown (c : Nat) : List Nat :=
  (List.range (c + 1)).map (fun i => c - i)

/-- Embeds the loop body: look up each position in turn, propagating the
first `KeyError` (`.error`), otherwise collect the values in order. -/
def Table.collectVals {α : Type*} (t : Table α) :
    List (Nat × Nat) → Except Unit (List α)
  | [] => .ok []
  | p :: ps =>
      match t.getItem p with
      | none => .error ()
      | some v => (t.collectVals ps).map (fun vs => v :: vs)

/-- Embeds `Table.diagonal(row, col, topright)`. -/
def Table.diagonal {α : Type*} (t : Table α) (row col : Nat) (topright : Bool) :
    Except Unit (List α) :=
  t.collectVals ((rangeFromTo row t.nrows).zip
    (if topright then rangeDown col else rangeFromTo col t.ncols))

/-- CLAIM C8 (code bug): the claim — and the function's own docstring —
say an out-of-range starting position fails with a key/index error; but on a
2x2 table, `diagonal(2, 0)` (row out of range) and `diagonal(0, 5)` (column
out of range, `topright=False`) both return an *empty list* without raising:
the out-of-range start merely empties `range(row, nrows)` (resp.
`range(col, ncols)`), so the zip is empty and no lookup ever happens.  (Only
a `topright=True` call with an out-of-range column actually raises, because
the descending column range is nonempty.)  In-range starts behave as
claimed: `diagonal(1, 0)` walks `(+1,+1)` until an axis exits. -/
theorem c8_out_of_range_diagonal_returns_empty :
    (tableInit 2 2 (0 : Int) [1, 2, 3, 4]).diagonal 2 0 false =
        Except.ok [] ∧
      (tableInit 2 2 (0 : Int) [1, 2, 3, 4]).diagonal 0 5 false =
        Except.ok [] ∧
      (tableInit 2 2 (0 : Int) [1, 2, 3, 4]).diagonal 0 5 true =
        Except.error () ∧
      (tableInit 2 2 (0 : Int) [1, 2, 3, 4]).diagonal 1 0 false =
        Except.ok [3] := by
  refine ⟨rfl, rfl, rfl, rfl⟩

/-!
Grid (`src/src/gameObjects.py` `Grid.update`):

    def update (self):
        _topleft = self.rect.topleft
        for row in self.rows:
            for cell in row:
                cell.rect.topleft = _topleft
                _topleft = cell.rect.topright
                self.rect.union_ip(cell.rect)
            _topleft = row[0].rect.bottomleft

Cells are mutated in place (only `cell.rect.topleft` is assigned); the grid
dict mapping `(row, col)` to cell objects is never written, so the model
carries the cells as a nested list in grid order — rows of `self.rows`,
each a list of the cells' rects.  `row[0]` raises `IndexError` on an empty
row; the `[]` branch below is a total-function placeholder that the
theorems exclude by hypothesis.
-/

/-- Embeds the inner loop over one row: each cell's `topleft` is set to the
running point, which then advances to that cell's `topright`. -/
def placeRow : Int × Int → List Rect → List Rect
  | _, [] => []
  | (px, py), cell :: cells =>
      { cell with x := px, y := py } :: placeRow (px + cell.w, py) cells

/-- Embeds the outer loop: the first row starts at the grid's `topleft`;
each following row starts at the previous row's `row[0].rect.bottomleft`. -/
def placeRows : Int × Int → List (List Rect) → List (List Rect)
  | _, [] => []
  | tl, row :: rest =>
      let placed := placeRow tl row
      let next :=
        match placed with
        | [] => tl
        | cell :: _ => (cell.x, cell.y + cell.h)
      placed :: placeRows next rest

/-- Embeds the interleaved `self.rect.union_ip(cell.rect)` calls: the grid
rect is unioned with every placed cell in order (the loop reads the grid
rect only once, before any union, so folding afterwards is equivalent). -/
def unionAll (g : Rect) (rows : List (List Rect)) : Rect :=
  rows.foldl (fun acc row => row.foldl Rect.unionR acc) g

/-- Embeds `Grid.update`: place every cell by row-major tiling from the
grid's `topleft`, and grow the grid rect by the union of all cells. -/
def gridUpdate (g : Rect) (rows : List (List Rect)) :
    Rect × List (List Rect) :=
  let placed := placeRows (g.x, g.y) rows
  (unionAll g placed, placed)

/-- Helper: placing a row only rewrites `x`,`y`; extents survive. -/
theorem placeRow_sizes (tl : Int × Int) (row : List Rect) :
    (placeRow tl row).map (fun c => (c.w, c.h)) =
      row.map (fun c => (c.w, c.h)) := by
  induction row generalizing tl with
  | nil => rfl
  | cons cell cells ih =>
      obtain ⟨px, py⟩ := tl
      simp [placeRow, ih]

/-- Helper: placing all rows only rewrites `x`,`y`; extents survive. -/
theorem placeRows_sizes (tl : Int × Int) (rows : List (List Rect)) :
    (placeRows tl rows).map (fun row => row.map (fun c => (c.w, c.h))) =
      rows.map (fun row => row.map (fun c => (c.w, c.h))) := by
  induction rows generalizing tl with
  | nil => rfl
  | cons row rest ih =>
      simp [placeRows, placeRow_sizes, ih]

/-- Helper: re-placing an already placed row from the same start point
changes nothing (positions are a function of the start and the extents,
which placing preserves). -/
theorem placeRow_idem (tl : Int × Int) (row : List Rect) :
    placeRow tl (placeRow tl row) = placeRow tl row := by
  induction row generalizing tl with
  | nil => rfl
  | cons cell cells ih =>
      obtain ⟨px, py⟩ := tl
      simp only [placeRow]
      exact congrArg _ (ih (px + cell.w, py))

/-- Helper: re-placing all rows from the same start point changes nothing. -/
theorem placeRows_idem (tl : Int × Int) (rows : List (List Rect)) :
    placeRows tl (placeRows tl rows) = placeRows tl rows := by
  induction rows generalizing tl with
  | nil => rfl
  | cons row rest ih =>
      simp only [placeRows, placeRow_idem]
      cases hpr : placeRow tl row with
      | nil => simp only [placeRows, hpr, placeRow_idem]; exact congrArg _ (ih tl)
      | cons cell cells =>
          exact congrArg _ (ih (cell.x, cell.y + cell.h))

/-- Helper: with nonnegative extents, every placed cell sits at or right of
and at or below the start point. -/
theorem placeRow_bounds (px py : Int) (row : List Rect)
    (hsz : ∀ c ∈ row, 0 ≤ c.w ∧ 0 ≤ c.h) :
    ∀ c ∈ placeRow (px, py) row, px ≤ c.x ∧ c.y = py := by
  induction row generalizing px with
  | nil => intro c hc; simp [placeRow] at hc
  | cons cell cells ih =>
      intro c hc
      simp only [placeRow, List.mem_cons] at hc
      rcases hc with hc | hc
      · subst hc; exact ⟨le_refl _, rfl⟩
      · have h0 := hsz cell (by simp)
        have hcells : ∀ c' ∈ cells, 0 ≤ c'.w ∧ 0 ≤ c'.h := by
          intro c' hc'
          exact hsz c' (by simp [hc'])
        have := ih (px + cell.w) hcells c hc
        exact ⟨by omega, this.2⟩

/-- Helper: every cell placed by `placeRows` from `(gx, gy)` sits at or
right of `gx` and at or below `gy`. -/
theorem placeRows_bounds (gx : Int) (rows : List (List Rect)) :
    ∀ gy : Int, (∀ row ∈ rows, ∀ c ∈ row, 0 ≤ c.w ∧ 0 ≤ c.h) →
      ∀ row ∈ placeRows (gx, gy) rows, ∀ c ∈ row, gx ≤ c.x ∧ gy ≤ c.y := by
  induction rows with
  | nil => intro gy _ row hrow; simp [placeRows] at hrow
  | cons row rest ih =>
      intro gy hsz row' hrow' c hc
      have hszrow : ∀ c' ∈ row, 0 ≤ c'.w ∧ 0 ≤ c'.h := by
        intro c' hc'
        exact hsz row (by simp) c' hc'
      have hszrest : ∀ r ∈ rest, ∀ c' ∈ r, 0 ≤ c'.w ∧ 0 ≤ c'.h := by
        intro r hr c' hc'
        exact hsz r (by simp [hr]) c' hc'
      cases row with
      | nil =>
          simp only [placeRows, placeRow] at hrow'
          rcases List.mem_cons.mp hrow' with hrow' | hrow'
          · subst hrow'; simp at hc
          · exact ih gy hszrest row' hrow' c hc
      | cons c0 cs =>
          have h00 := hszrow c0 (by simp)
          simp only [placeRows, placeRow] at hrow'
          rcases List.mem_cons.mp hrow' with hrow' | hrow'
          · subst hrow'
            rcases List.mem_cons.mp hc with hc | hc
            · subst hc; exact ⟨le_refl _, le_refl _⟩
            · have hcs : ∀ c' ∈ cs, 0 ≤ c'.w ∧ 0 ≤ c'.h := by
                intro c' hc'
                exact hszrow c' (by simp [hc'])
              have := placeRow_bounds (gx + c0.w) gy cs hcs c hc
              exact ⟨by omega, le_of_eq this.2.symm⟩
          · have := ih (gy + c0.h) hszrest row' hrow' c hc
            exact ⟨this.1, by omega⟩

/-- Helper: unioning, one row at a time, rectangles lying at or right of and
at or below the accumulator's top-left corner never moves that corner. -/
theorem foldl_unionR_topleft (gx gy : Int) (row : List Rect) :
    ∀ acc : Rect, acc.x = gx → acc.y = gy →
      (∀ c ∈ row, gx ≤ c.x ∧ gy ≤ c.y) →
      (row.foldl Rect.unionR acc).x = gx ∧ (row.foldl Rect.unionR acc).y = gy := by
  induction row with
  | nil => intro acc h1 h2 _; exact ⟨h1, h2⟩
  | cons c cs ihr =>
      intro acc h1 h2 h
      have hc := h c (by simp)
      rw [List.foldl_cons]
      refine ihr (Rect.unionR acc c) ?_ ?_ ?_
      · simp only [Rect.unionR]
        omega
      · simp only [Rect.unionR]
        omega
      · intro c' hc'
        exact h c' (by simp [hc'])

/-- Helper: the grid-wide union of all placed cells keeps the grid rect's
top-left corner. -/
theorem unionAll_topleft (gx gy : Int) (rows : List (List Rect)) :
    ∀ acc : Rect, acc.x = gx → acc.y = gy →
      (∀ row ∈ rows, ∀ c ∈ row, gx ≤ c.x ∧ gy ≤ c.y) →
      (unionAll acc rows).x = gx ∧ (unionAll acc rows).y = gy := by
  induction rows with
  | nil => intro acc h1 h2 _; exact ⟨h1, h2⟩
  | cons row rest ih =>
      intro acc h1 h2 h
      have hrow : ∀ c ∈ row, gx ≤ c.x ∧ gy ≤ c.y := by
        intro c hc
        exact h row (by simp) c hc
      have hrest : ∀ r ∈ rest, ∀ c ∈ r, gx ≤ c.x ∧ gy ≤ c.y := by
        intro r hr c hc
        exact h r (by simp [hr]) c hc
      have hf := foldl_unionR_topleft gx gy row acc h1 h2 hrow
      exact ih (row.foldl Rect.unionR acc) hf.1 hf.2 hrest

/-- CLAIM C9 (confirmed): calling `Grid.update` twice in a row with no
intervening mutation yields, after the second call, exactly the same rect
for every cell as after the first: the unions of the first call never move
the grid rect's top-left corner (cells have nonnegative extents and are
placed at or right of and below it), so the second placement starts from the
same point over cells of the same sizes.  The nonempty-row hypothesis
matches Python, where `row[0]` on an empty row would raise `IndexError`. -/
theorem c9_grid_update_idempotent (g : Rect) (rows : List (List Rect))
    (hne : ∀ row ∈ rows, row ≠ [])
    (hsz : ∀ row ∈ rows, ∀ c ∈ row, 0 ≤ c.w ∧ 0 ≤ c.h) :
    (gridUpdate (gridUpdate g rows).1 (gridUpdate g rows).2).2 =
      (gridUpdate g rows).2 := by
  have hb := placeRows_bounds g.x rows g.y hsz
  have htl := unionAll_topleft g.x g.y (placeRows (g.x, g.y) rows) g
    rfl rfl hb
  show placeRows ((unionAll g (placeRows (g.x, g.y) rows)).x,
      (unionAll g (placeRows (g.x, g.y) rows)).y)
      (placeRows (g.x, g.y) rows) = placeRows (g.x, g.y) rows
  rw [htl.1, htl.2]
  exact placeRows_idem (g.x, g.y) rows

/-- Witness for C9: a 2x2 grid of 3x2 cells. -/
theorem c9_grid_update_idempotent_witness :
    (gridUpdate
        (gridUpdate ⟨0, 0, 10, 10⟩
          [[⟨5, 5, 3, 2⟩, ⟨7, 7, 3, 2⟩], [⟨1, 1, 3, 2⟩, ⟨2, 2, 3, 2⟩]]).1
        (gridUpdate ⟨0, 0, 10, 10⟩
          [[⟨5, 5, 3, 2⟩, ⟨7, 7, 3, 2⟩], [⟨1, 1, 3, 2⟩, ⟨2, 2, 3, 2⟩]]).2).2 =
      (gridUpdate ⟨0, 0, 10, 10⟩
        [[⟨5, 5, 3, 2⟩, ⟨7, 7, 3, 2⟩], [⟨1, 1, 3, 2⟩, ⟨2, 2, 3, 2⟩]]).2 :=
  c9_grid_update_idempotent ⟨0, 0, 10, 10⟩
    [[⟨5, 5, 3, 2⟩, ⟨7, 7, 3, 2⟩], [⟨1, 1, 3, 2⟩, ⟨2, 2, 3, 2⟩]]
    (by decide) (by decide)

/-- CLAIM C10 (confirmed): `Grid.update` changes only each cell's position
(its `topleft` is reassigned by the row-major tiling): the nested list of
cell extents is unchanged — same rows, same cells per row, same `(w, h)`
each — and the grid dict that associates objects to `(row, col)` positions
is never written by `update`, which the model reflects by keeping cells in
their grid order.  The nonempty-row hypothesis matches Python, where
`row[0]` on an empty row would raise `IndexError`. -/
theorem c10_grid_update_touches_only_positions (g : Rect)
    (rows : List (List Rect)) (hne : ∀ row ∈ rows, row ≠ []) :
    (gridUpdate g rows).2.map (fun row => row.map (fun c => (c.w, c.h))) =
      rows.map (fun row => row.map (fun c => (c.w, c.h))) :=
  placeRows_sizes (g.x, g.y) rows

/-- Witness for C10: the same 2x2 grid of 3x2 cells. -/
theorem c10_grid_update_touches_only_positions_witness :
    (gridUpdate ⟨0, 0, 10, 10⟩
        [[⟨5, 5, 3, 2⟩, ⟨7, 7, 3, 2⟩], [⟨1, 1, 3, 2⟩, ⟨2, 2, 3, 2⟩]]).2.map
        (fun row => row.map (fun c => (c.w, c.h))) =
      [[((3 : Int), (2 : Int)), (3, 2)], [(3, 2), (3, 2)]] :=
  c10_grid_update_touches_only_positions ⟨0, 0, 10, 10⟩
    [[⟨5, 5, 3, 2⟩, ⟨7, 7, 3, 2⟩], [⟨1, 1, 3, 2⟩, ⟨2, 2, 3, 2⟩]]
    (by decide)
